import Mathlib

/-!
A verification development for the journal message catalog engine
(`src/src/journal/catalog.c`): text import and merge, the binary catalog
format, the atomic build pipeline, and lookup with locale fallback.

Strings are modelled as byte lists (`List Nat`); the C code manipulates
NUL-terminated byte strings and all comparisons are byte-wise.  Machine
integers are `Nat` with explicit `% 2 ^ 64` where C overflow matters.
-/

namespace CatalogC

/-- Byte string: the bytes of a C string, without the trailing NUL. -/
abbrev Str := List Nat

/-- View an ASCII Lean string literal as a byte string. -/
def str (s : String) : Str := s.data.map Char.toNat

/-- Errors surfaced by the catalog engine.  `einval`, `eio`, `ebadmsg` and
`enoent` model the corresponding negative errno returns; `assertFail` models
a failed `assert`/`assert_se` (which aborts the process in C). -/
inductive CatError where
  | einval
  | eio
  | ebadmsg
  | enoent
  | mkdirFailed
  | openFailed
  | assertFail
deriving DecidableEq, Repr

/-! ### Byte-wise comparison (`memcmp` on ids, `strcmp` on languages) -/

/-- Lexicographic byte comparison.  On the 16 id bytes this is the
`CMP(i->id.bytes[k], j->id.bytes[k])` loop of `catalog_compare_func`
(most-significant byte first, since `bytes[0]` is the most significant
byte of the printed id); on NUL-free byte strings it is `strcmp`
(the terminating NUL makes a proper prefix compare less). -/
def cmpList : Str → Str → Ordering
  | [], [] => .eq
  | [], _ :: _ => .lt
  | _ :: _, [] => .gt
  | a :: as, b :: bs =>
    if a < b then .lt else if b < a then .gt else cmpList as bs

/-- `catalog_compare_func`: id bytes in order, then `strcmp` on language. -/
def catalog_compare_func (i j : Str × Str) : Ordering :=
  match cmpList i.1 j.1 with
  | .eq => cmpList i.2 j.2
  | o => o

/-! ### Payload header/body split (`next_header` / `skip_header`) -/

/-- Drop everything up to and including the first newline; `none` when the
line has no terminating newline (`strchr(*s, '\n') == NULL`). -/
def drop_line? : Str → Option Str
  | [] => none
  | c :: rest => if c = 10 then some rest else drop_line? rest

/-- The `next_header` loop of `skip_header`, structurally recursive on a
fuel bound (any fuel at least the number of header lines is enough; callers
pass the string length, which always is). -/
def skip_header_fuel : Nat → Str → Str
  | 0, s => s
  | _ + 1, [] => []
  | fuel + 1, c :: rest =>
    if c = 10 then c :: rest
    else
      match drop_line? rest with
      | none => c :: rest
      | some r => skip_header_fuel fuel r

/-- `skip_header`: advance over complete, non-empty header lines; stop at an
empty line, at a line without a terminating newline, or at the end.  Returns
the body suffix (which, when a blank separator line is present, starts with
that blank line's newline). -/
def skip_header (s : Str) : Str := skip_header_fuel s.length s

/-- The body part of a payload: the suffix at which `skip_header` stops. -/
def bodyPart (s : Str) : Str := skip_header s

/-- The header part of a payload: everything before `skip_header`'s stop. -/
def headerPart (s : Str) : Str := s.take (s.length - (skip_header s).length)

theorem drop_line?_isSuffix : ∀ (l r : Str), drop_line? l = some r → r.IsSuffix l := by
  intro l
  induction l with
  | nil => intro r h; simp [drop_line?] at h
  | cons c rest ih =>
    intro r h
    by_cases hc : c = 10
    · subst hc; simp [drop_line?] at h; subst h
      exact List.suffix_cons 10 rest
    · simp only [drop_line?, hc, if_false] at h
      exact (ih r h).trans (List.suffix_cons c rest)

theorem skip_header_fuel_isSuffix :
    ∀ (fuel : Nat) (s : Str), (skip_header_fuel fuel s).IsSuffix s := by
  intro fuel
  induction fuel with
  | zero => intro s; cases s <;> simp [skip_header_fuel]
  | succ f ih =>
    intro s
    cases s with
    | nil => simp [skip_header_fuel]
    | cons c rest =>
      by_cases hc : c = 10
      · simp [skip_header_fuel, hc]
      · rw [skip_header_fuel, if_neg hc]
        cases hdl : drop_line? rest with
        | none => simp
        | some r =>
          exact (ih r).trans ((drop_line?_isSuffix rest r hdl).trans (List.suffix_cons c rest))

theorem skip_header_isSuffix (s : Str) : (skip_header s).IsSuffix s :=
  skip_header_fuel_isSuffix s.length s

theorem headerPart_append_bodyPart (s : Str) : headerPart s ++ bodyPart s = s := by
  obtain ⟨t, ht⟩ := skip_header_isSuffix s
  have hlen : t.length = s.length - (skip_header s).length := by
    have := congrArg List.length ht
    simp at this
    omega
  have : headerPart s = t := by
    rw [headerPart, ← hlen, ← ht, List.take_left]
  rw [bodyPart, this, ht]

/-! ### Merge engine (`combine_entries`, `finish_item`) -/

/-- `combine_entries(one, two)`: header lines of `one`, then header lines of
`two`, then the body of `one` when it is non-empty, otherwise the body of
`two`.  (`one` is the argument passed first; `finish_item` passes the newly
imported payload first and the previously stored payload second.) -/
def combine_entries (one two : Str) : Str :=
  headerPart one ++ headerPart two ++
    (if bodyPart one ≠ [] then bodyPart one else bodyPart two)

/-- Key of the merge table: raw id bytes and language bytes
(`catalog_hash_func` hashes, and `catalog_compare_func` compares, exactly
these bytes; the language of a language-neutral entry is the empty string). -/
structure CatalogKey where
  id : Str
  language : Str
deriving DecidableEq, Repr

/-- Modelled from the spec: the `Hashmap` implementation is not under `src/`
(only `hashmap.h` uses appear).  Per the spec the merge engine is "an
associative structure" keyed by exact `(id, language)` byte equality; it is
modelled as an insertion-ordered association list. -/
abbrev Table := List (CatalogKey × Str)

/-- `hashmap_get`. -/
def tbl_get (h : Table) (k : CatalogKey) : Option Str :=
  match h with
  | [] => none
  | (k', v) :: rest => if k' = k then some v else tbl_get rest k

/-- `hashmap_update`: replace the value of an existing key in place. -/
def tbl_update (h : Table) (k : CatalogKey) (v : Str) : Table :=
  match h with
  | [] => []
  | (k', v') :: rest =>
    if k' = k then (k', v) :: rest else (k', v') :: tbl_update rest k v

/-- `finish_item`: store a finished entry in the merge table, combining with
a previously stored payload for the same `(id, language)` key.  The C
function `assert`s `payload_size > 0` and, when a language is present,
`strlen(language) > 1 && strlen(language) < 32`; a firing assert is
modelled as `.error .assertFail`. -/
def finish_item (h : Table) (id : Str) (language : Option Str) (payload : Str) :
    Except CatError Table :=
  if payload.length = 0 then .error .assertFail
  else
    match language with
    | some l =>
      if ¬(1 < l.length ∧ l.length < 32) then .error .assertFail
      else finish_item_store h ⟨id, l⟩ payload
    | none => finish_item_store h ⟨id, []⟩ payload
where
  /-- The get/combine/update-or-put step of `finish_item`. -/
  finish_item_store (h : Table) (k : CatalogKey) (payload : Str) : Except CatError Table :=
    match tbl_get h k with
    | some prev => .ok (tbl_update h k (combine_entries payload prev))
    | none => .ok (h ++ [(k, payload)])

/-! ### Importer (`catalog_file_lang`, `catalog_entry_lang`,
`catalog_import_file`) -/

/-- The backwards scan of `catalog_file_lang`: decrement `beg` while it is
inside the name (`beg > 0`), not at a `'.'` or `'/'`, and fewer than 32
bytes before the `.catalog` suffix. -/
def file_lang_scan (path : Str) (e : Nat) : Nat → Nat
  | 0 => 0
  | beg + 1 =>
    if path.getD (beg + 1) 0 ≠ 46 ∧ path.getD (beg + 1) 0 ≠ 47 ∧ e - (beg + 1) < 32 then
      file_lang_scan path e beg
    else beg + 1

/-- `catalog_file_lang`: derive a file's default language from its name.
The name must end in `.catalog` and the dot-delimited token right before
that suffix (1 to 31 bytes) is the language.  (The C code reads one byte
before the buffer when the whole name is exactly `.catalog`; that name never
reaches it, and the model returns `none` there.) -/
def catalog_file_lang (path : Str) : Option Str :=
  if 8 ≤ path.length ∧ path.drop (path.length - 8) = str ".catalog" then
    let e := path.length - 8
    if e = 0 then none
    else
      let beg := file_lang_scan path e (e - 1)
      if path.getD beg 0 = 46 ∧ beg + 1 < e then
        some ((path.take e).drop (beg + 1))
      else none
  else none

/-- `WHITESPACE` of string-util.h: space, tab, newline, carriage return. -/
def isWS (c : Nat) : Bool := c = 32 ∨ c = 9 ∨ c = 10 ∨ c = 13

/-- `strstrip`: drop leading and trailing whitespace. -/
def strstrip (s : Str) : Str :=
  ((s.dropWhile isWS).reverse.dropWhile isWS).reverse

/-- `catalog_entry_lang`: validate an explicit language tag from an entry
marker line.  Length must be in `[1,31]`; a tag equal to the file's default
language is discarded (`.ok none`, with a non-fatal warning) and a tag that
differs is kept (`.ok (some t)`, with a non-fatal warning). -/
def catalog_entry_lang (t : Str) (deflang : Option Str) :
    Except CatError (Option Str) :=
  if t.length = 0 then .error .einval
  else if t.length > 31 then .error .einval
  else
    match deflang with
    | some d => if t = d then .ok none else .ok (some t)
    | none => .ok (some t)

/-- Hex digit value (as in `unhexchar`: `0-9`, `a-f`, `A-F`). -/
def hexVal (c : Nat) : Option Nat :=
  if 48 ≤ c ∧ c ≤ 57 then some (c - 48)
  else if 97 ≤ c ∧ c ≤ 102 then some (c - 87)
  else if 65 ≤ c ∧ c ≤ 70 then some (c - 55)
  else none

/-- Pair up hex digits into bytes. -/
def bytesOfHex : Str → Option Str
  | [] => some []
  | a :: b :: rest =>
    match hexVal a, hexVal b, bytesOfHex rest with
    | some x, some y, some l => some ((x * 16 + y) :: l)
    | _, _, _ => none
  | [_] => none

/-- Modelled from the spec: `sd_id128_from_string` (sd-id128.c is not under
`src/`).  Per the spec the canonical text form of a message identifier is 32
hex digits, parsed into the 16 id bytes most-significant byte first. -/
def sd_id128_from_string (s : Str) : Option Str :=
  if s.length = 32 then bytesOfHex s else none

/-- State of the `catalog_import_file` read loop. -/
structure ImportState where
  table : Table
  got_id : Bool
  empty_line : Bool
  id : Str
  lang : Option Str
  payload : Str
  deflang : Option Str
deriving DecidableEq, Repr

/-- One iteration of the `catalog_import_file` loop, for one line (already
stripped of its trailing newline, as after `truncate_nl`). -/
def import_line (st : ImportState) (line : Str) : Except CatError ImportState :=
  if line = [] then .ok { st with empty_line := true }
  else if line.headD 0 = 35 ∨ line.headD 0 = 59 then
    -- COMMENTS "#;": skipped entirely, `empty_line` is left as it was
    .ok st
  else
    -- entry marker shape: "-- " + 32 bytes + (end | ' ' + language)
    let marker : Prop := st.empty_line = true ∧ 35 ≤ line.length ∧
      line.getD 0 0 = 45 ∧ line.getD 1 0 = 45 ∧ line.getD 2 0 = 32 ∧
      (line.length = 35 ∨ line.getD 35 0 = 32)
    if marker then
      -- the C code NUL-terminates the buffer at index 35 before parsing
      match sd_id128_from_string ((line.drop 3).take 32) with
      | some jd =>
        (do
          let st1 ←
            if st.got_id then
              if st.payload.length = 0 then .error .einval
              else do
                let t ← finish_item st.table st.id (st.lang <|> st.deflang) st.payload
                pure { st with table := t, lang := none, payload := [] }
            else pure st
          let st2 ←
            if 35 < line.length then do
              let l ← catalog_entry_lang (strstrip (line.drop 36)) st1.deflang
              pure { st1 with lang := l }
            else pure st1
          pure { st2 with got_id := true, empty_line := false, id := jd } :
          Except CatError ImportState)
      | none =>
        -- not a valid id: the (truncated) line falls through to the payload
        import_payload_line st (line.take 35)
    else import_payload_line st line
where
  /-- The payload-accumulation tail of the loop body. -/
  import_payload_line (st : ImportState) (line : Str) : Except CatError ImportState :=
    if st.got_id = false then .error .einval
    else
      .ok { st with
        payload := st.payload ++ (if st.empty_line then [10] else []) ++ line ++ [10],
        empty_line := false }

/-- `catalog_import_file`: parse one source file (its lines, plus its path
for the default-language rule) into the merge table. -/
def catalog_import_file (h : Table) (path : Str) (lines : List Str) :
    Except CatError Table := do
  let st0 : ImportState :=
    { table := h, got_id := false, empty_line := true, id := [],
      lang := none, payload := [], deflang := catalog_file_lang path }
  let st ← lines.foldlM import_line st0
  if st.got_id then
    if st.payload.length = 0 then .error .einval
    else finish_item st.table st.id (st.lang <|> st.deflang) st.payload
  else pure st.table

/-! ### Builder (`catalog_update`, `write_catalog`) -/

/-- An on-disk catalog record as built: 16 id bytes, language (at most 31
bytes, NUL-padded to 32 on disk), and string-pool offset. -/
structure CatalogItem where
  id : Str
  language : Str
  offset : Nat
deriving DecidableEq, Repr

/-- `catalog_compare_func` on records (the `offset` field is not compared). -/
def item_cmp (i j : CatalogItem) : Ordering :=
  catalog_compare_func (i.id, i.language) (j.id, j.language)

/-- The non-strict record order: `catalog_compare_func(i, j) <= 0`. -/
def item_le (i j : CatalogItem) : Prop := item_cmp i j ≠ .gt

instance (i j : CatalogItem) : Decidable (item_le i j) := by
  unfold item_le; infer_instance

/-- Modelled from the spec: `strbuf` (strbuf.c is not under `src/`).  Per
the spec the string pool "stores byte-identical payload strings once" and
records reference them by offset; modelled as the list of distinct strings
in insertion order, each contributing its bytes plus a NUL. -/
abbrev Pool := List Str

/-- Total size in bytes of a pool (each string plus its NUL terminator). -/
def pool_size (pool : Pool) : Nat :=
  pool.foldr (fun s acc => s.length + 1 + acc) 0

/-- The pool as bytes: the NUL-terminated strings, in order. -/
def pool_bytes (pool : Pool) : Str :=
  pool.foldr (fun s acc => s ++ 0 :: acc) []

/-- `strbuf_add_string`: reuse the offset of an already-present identical
string, otherwise append the string and return its fresh offset. -/
def strbuf_add (pool : Pool) (s : Str) : Nat × Pool :=
  match pool with
  | [] => (0, [s])
  | t :: rest =>
    if t = s then (0, t :: rest)
    else
      let (off, rest') := strbuf_add rest s
      (t.length + 1 + off, t :: rest')

/-- The `HASHMAP_FOREACH_KEY` loop of `catalog_update`: walk the merge table,
append each payload to the string pool and collect a record per key. -/
def assign_offsets (tbl : Table) (pool : Pool) : List CatalogItem × Pool :=
  match tbl with
  | [] => ([], pool)
  | (k, payload) :: rest =>
    let (off, pool') := strbuf_add pool payload
    let (items, pool'') := assign_offsets rest pool'
    (⟨k.id, k.language, off⟩ :: items, pool'')

/-- `qsort_safe(items, n, sizeof(CatalogItem), catalog_compare_func)`,
modelled as a comparison sort by the same comparator (the merge-table keys
are pairwise distinct, so every comparison sort produces this unique
order). -/
def sort_items (l : List CatalogItem) : List CatalogItem :=
  List.insertionSort item_le l

/-- Little-endian bytes of `n % 256^w`, `w` bytes wide (`htole32`/`htole64`). -/
def leBytes (w n : Nat) : Str :=
  match w with
  | 0 => []
  | w' + 1 => n % 256 :: leBytes w' (n / 256)

/-- Read a `w`-byte little-endian value at byte offset `off` of a file
(`le32toh`/`le64toh`). -/
def readLE (file : Str) (off w : Nat) : Nat :=
  match w with
  | 0 => 0
  | w' + 1 => file.getD off 0 + 256 * readLE file (off + 1) w'

/-- The 8-byte magic signature `"RHHHKSLP"` (`CATALOG_SIGNATURE`). -/
def CATALOG_SIGNATURE : Str := str "RHHHKSLP"

/-- `sizeof(CatalogHeader)`: 8 signature + 4 + 4 flags + 3 × 8 = 40 bytes;
`ALIGN_TO(40, 8) = 40`. -/
def headerSize : Nat := 40

/-- `sizeof(CatalogItem)`: 16 id + 32 language + 8 offset = 56 bytes. -/
def itemSize : Nat := 56

/-- The header written by `write_catalog`: signature, compatible flags 0,
incompatible flags 0, `header_size = ALIGN_TO(sizeof(CatalogHeader), 8)`,
`n_items = n`, `catalog_item_size = sizeof(CatalogItem)`. -/
def header_bytes (n : Nat) : Str :=
  CATALOG_SIGNATURE ++ leBytes 4 0 ++ leBytes 4 0 ++
    leBytes 8 headerSize ++ leBytes 8 n ++ leBytes 8 itemSize

/-- One on-disk record: id bytes, language NUL-padded to 32 bytes,
little-endian 64-bit offset. -/
def item_bytes (i : CatalogItem) : Str :=
  i.id ++ (i.language ++ List.replicate (32 - i.language.length) 0) ++ leBytes 8 i.offset

/-- The record array as bytes. -/
def items_bytes (l : List CatalogItem) : Str := (l.map item_bytes).flatten

/-- The full catalog file written for record array `items` and pool `pool`. -/
def catalog_bytes (items : List CatalogItem) (pool : Pool) : Str :=
  header_bytes items.length ++ items_bytes items ++ pool_bytes pool

/-- The filesystem as `write_catalog` sees it: the contents (if any) of the
target path and of the temporary file. -/
structure FsState where
  target : Option Str
  temp : Option Str
deriving DecidableEq, Repr

/-- Failure injection for each fallible step of `write_catalog`:
`mkdir_p`, `fopen_temporary`, the three `fwrite`s, `fflush_and_check`,
`rename`. -/
structure WriteEnv where
  mkdirOk : Bool
  fopenOk : Bool
  writeHeaderOk : Bool
  writeItemsOk : Bool
  writeStringsOk : Bool
  flushOk : Bool
  renameOk : Bool
deriving DecidableEq, Repr

/-- `write_catalog`: write header, record array and string pool to a
temporary file, flush, and atomically rename it onto the target path; on any
failure unlink the temporary file (`goto error` / early return) and leave
the target untouched.  Returns the byte size on success (`ftello`). -/
def write_catalog (env : WriteEnv) (st : FsState)
    (items : List CatalogItem) (pool : Pool) : Except CatError Nat × FsState :=
  if env.mkdirOk = false then (.error .mkdirFailed, st)
  else if env.fopenOk = false then (.error .openFailed, st)
  else
    -- temporary file now exists; a failed step unlinks it
    let hdr := header_bytes items.length
    if env.writeHeaderOk = false then (.error .eio, { st with temp := none })
    else
      let withItems := hdr ++ items_bytes items
      if env.writeItemsOk = false then (.error .eio, { st with temp := none })
      else
        let withStrings := withItems ++ pool_bytes pool
        if env.writeStringsOk = false then (.error .eio, { st with temp := none })
        else if env.flushOk = false then (.error .eio, { st with temp := none })
        else if env.renameOk = false then (.error .eio, { st with temp := none })
        else (.ok withStrings.length, { target := some withStrings, temp := none })

/-- A source file as handed to the importer by the file-discovery
collaborator: its path and its lines. -/
abbrev SourceFile := Str × List Str

/-- The `STRV_FOREACH` import loop of `catalog_update`. -/
def importAll (files : List SourceFile) : Except CatError Table :=
  files.foldlM (fun h f => catalog_import_file h f.1 f.2) []

/-- The record array `catalog_update` hands to `write_catalog`: offsets
assigned in table-iteration order, then sorted by `catalog_compare_func`. -/
def build_items (tbl : Table) : List CatalogItem :=
  sort_items (assign_offsets tbl []).1

/-- The string pool `catalog_update` hands to `write_catalog`. -/
def build_pool (tbl : Table) : Pool :=
  (assign_offsets tbl []).2

/-- `catalog_update`: import every source file in order, then — unless the
merge table is empty, in which case nothing is written — assign string-pool
offsets, sort the records and write the catalog file. -/
def catalog_update (files : List SourceFile) (env : WriteEnv) (st : FsState) :
    Except CatError Unit × FsState :=
  match importAll files with
  | .error e => (.error e, st)
  | .ok tbl =>
    if tbl.length = 0 then (.ok (), st)
    else
      match write_catalog env st (build_items tbl) (build_pool tbl) with
      | (.ok _, st') => (.ok (), st')
      | (.error e, st') => (.error e, st')

/-! ### Reader (`open_mmap`, `find_id`, `catalog_get`) -/

deriving instance DecidableEq for Except

/-- The outcome of `open_mmap`: the result, whether the file descriptor was
closed before returning, and whether a memory mapping is still established
on return (a validation failure closes the descriptor and unmaps). -/
structure OpenResult where
  res : Except CatError Unit
  fdClosed : Bool
  mapped : Bool
deriving DecidableEq, Repr

/-- `open_mmap`: map the file and validate the header.  A file smaller than
the header returns `-EINVAL` before mapping; a failed validation —
signature, `header_size`, `catalog_item_size`, incompatible flags,
`n_items`, declared size — closes and unmaps and returns `-EBADMSG`.
The size comparison is the C expression
`st.st_size < (off_t) (header_size + catalog_item_size * n_items)`: the sum
and product wrap modulo `2 ^ 64`, and the cast of a value `>= 2 ^ 63` to
`off_t` yields (with the two's-complement conversion gcc defines) a negative
number, making the comparison false. -/
def open_mmap (file : Str) : OpenResult :=
  if file.length < headerSize then ⟨.error .einval, true, false⟩
  else
    let hs := readLE file 16 8
    let ni := readLE file 24 8
    let is := readLE file 32 8
    let incompat := readLE file 12 4
    let declared := (hs + is * ni) % 2 ^ 64
    let sizeBad : Bool :=
      if declared < 2 ^ 63 then decide (file.length < declared) else false
    if file.take 8 ≠ CATALOG_SIGNATURE ∨ hs < headerSize ∨ is < itemSize ∨
        incompat ≠ 0 ∨ ni = 0 ∨ sizeBad = true then
      ⟨.error .ebadmsg, true, false⟩
    else ⟨.ok (), false, true⟩

/-- `bsearch` over the mapped record table with `catalog_compare_func`,
modelled as a search for the comparing-equal record (on a table sorted by
that comparator — the only tables the builder produces — `bsearch` finds
exactly the comparing-equal element, and comparing equal is key equality). -/
def lookup_item (items : List CatalogItem) (id lang : Str) : Option CatalogItem :=
  items.find? (fun it => item_cmp it ⟨id, lang, 0⟩ = .eq)

/-- `find_id`: point lookup with locale fallback.  The requested language is
the `setlocale(LC_MESSAGES, NULL)` string (`none` models `NULL`).  The C
code copies at most 32 bytes of it into the fixed `key.language` buffer
(`strncpy`; the byte after the buffer is the zeroed `offset` field, so the
copy behaves as truncation to 32 bytes), NUL-terminates it at the first
`'.'` or `'@'` (`strcspn`), and tries: the truncated tag; on a miss, the tag
cut at its first `'_'` if it has one; on a miss, the empty tag. -/
def find_id (items : List CatalogItem) (loc? : Option Str) (id : Str) :
    Option CatalogItem :=
  let step3 := fun (f : Option CatalogItem) =>
    match f with
    | some f => some f
    | none => lookup_item items id []
  match loc? with
  | none => step3 none
  | some loc =>
    if loc = [] ∨ loc = str "C" ∨ loc = str "POSIX" then step3 none
    else
      let k1 := (loc.take 32).takeWhile (fun c => c != 46 && c != 64)
      match lookup_item items id k1 with
      | some f => step3 (some f)
      | none =>
        if k1.contains 95 then
          step3 (lookup_item items id (k1.takeWhile (fun c => c != 95)))
        else step3 none

/-- The NUL-terminated string at `offset` in the string section (the hit's
payload: `p + header_size + n_items * catalog_item_size + offset`). -/
def pool_read (pool : Pool) (offset : Nat) : Str :=
  (pool_bytes pool).drop offset |>.takeWhile (fun c => c ≠ 0)

/-- `catalog_get` after a successful open: `find_id`, `-ENOENT` on a miss,
the payload string on a hit. -/
def catalog_get (items : List CatalogItem) (pool : Pool) (loc? : Option Str)
    (id : Str) : Except CatError Str :=
  match find_id items loc? id with
  | none => .error .enoent
  | some f => .ok (pool_read pool f.offset)

/-! ### Lister (`catalog_list`, `catalog_list_items`) -/

/-- The record-walk of `catalog_list`: `last?` is the id stored in `last_id`
(set from every emitted record).  A record whose id equals `last_id` is
skipped; otherwise `assert_se(s = find_id(p, items[n].id))` — modelled as
`.error .assertFail` when `find_id` misses — and the entry is emitted. -/
def list_loop (allItems : List CatalogItem) (pool : Pool) (loc? : Option Str) :
    List CatalogItem → Option Str → Except CatError (List (Str × Str))
  | [], _ => .ok []
  | it :: rest, last? =>
    if last? = some it.id then list_loop allItems pool loc? rest last?
    else
      match find_id allItems loc? it.id with
      | none => .error .assertFail
      | some f =>
        (list_loop allItems pool loc? rest (some it.id)).map
          (fun l => (it.id, pool_read pool f.offset) :: l)

/-- `catalog_list`: walk the whole record table in on-disk order, emitting
one `(id, payload)` per run of equal ids, payloads resolved by `find_id`. -/
def catalog_list (items : List CatalogItem) (pool : Pool) (loc? : Option Str) :
    Except CatError (List (Str × Str)) :=
  list_loop items pool loc? items none

/-- `if (r == 0) r = k;`: record `k` only when no earlier error is held. -/
def first_err (r : Except CatError Unit) (k : CatError) : Except CatError Unit :=
  match r with
  | .ok _ => .error k
  | .error e => .error e

/-- The `STRV_FOREACH` loop of `catalog_list_items`: `r` carries the first
error seen so far (`.ok ()` for still-zero `r`); a parse failure
(`sd_id128_from_string < 0`, an `-EINVAL`) or a failed `catalog_get` is
recorded in `r` only if `r` is still zero, and the loop continues. -/
def list_items_loop (items : List CatalogItem) (pool : Pool) (loc? : Option Str) :
    List Str → Except CatError Unit → List (Str × Str) × Except CatError Unit
  | [], r => ([], r)
  | s :: rest, r =>
    match sd_id128_from_string s with
    | none =>
      list_items_loop items pool loc? rest (first_err r .einval)
    | some id =>
      match catalog_get items pool loc? id with
      | .error k =>
        list_items_loop items pool loc? rest (first_err r k)
      | .ok msg =>
        let (out, r') := list_items_loop items pool loc? rest r
        ((id, msg) :: out, r')

/-- `catalog_list_items`: look up an explicit list of textual ids, emitting
every resolvable one and returning the first error (or success). -/
def catalog_list_items (items : List CatalogItem) (pool : Pool)
    (loc? : Option Str) (strs : List Str) : List (Str × Str) × Except CatError Unit :=
  list_items_loop items pool loc? strs (.ok ())

/-! ### Example inputs used by the claim theorems -/

/-- A 16-byte example id (`.....01`). -/
def idA : Str := List.replicate 15 0 ++ [1]

/-- A 16-byte example id (`.....02`), larger than `idA` in id-byte order. -/
def idB : Str := List.replicate 15 0 ++ [2]

/-- Example earlier-stored payload: header `Subject: A`, body `Body A`. -/
def pOldEx : Str := str "Subject: A" ++ [10, 10] ++ str "Body A" ++ [10]

/-- Example newly imported payload: header `Defined-By: B`, body `Body B`. -/
def pNewEx : Str := str "Defined-By: B" ++ [10, 10] ++ str "Body B" ++ [10]

/-- The merge result as claim C1 states it (headers of the earlier-stored
payload first, body of the earlier-stored payload preferred); stated from
the claim's words, for comparison with the source's `combine_entries`. -/
def merge_as_claimed (earlier newer : Str) : Str :=
  headerPart earlier ++ headerPart newer ++
    (if bodyPart earlier ≠ [] then bodyPart earlier else bodyPart newer)

/-- A crafted header whose declared `catalog_item_size * n_items` product
wraps modulo `2 ^ 64`: signature intact, flags zero, `header_size = 40`,
`n_items = 16`, `catalog_item_size = 2 ^ 60`, followed by 8 padding bytes
(file size 48). -/
def overflowFile : Str :=
  CATALOG_SIGNATURE ++ leBytes 4 0 ++ leBytes 4 0 ++ leBytes 8 40 ++
    leBytes 8 16 ++ leBytes 8 (2 ^ 60) ++ leBytes 8 0

/-- A header that declares zero records (otherwise well formed, 48 bytes). -/
def zeroItemsFile : Str :=
  CATALOG_SIGNATURE ++ leBytes 4 0 ++ leBytes 4 0 ++ leBytes 8 40 ++
    leBytes 8 0 ++ leBytes 8 56 ++ leBytes 8 0

/-- Record table holding id `idA` under languages `""`, `"de"`, `"en"`. -/
def exItemsLang : List CatalogItem :=
  [⟨idA, [], 0⟩, ⟨idA, str "de", 3⟩, ⟨idA, str "en", 8⟩]

/-- Record table for the listing example: id `idA` under `"de"` and `"en"`
only, id `idB` under `""` only (on-disk sorted order). -/
def exItemsList : List CatalogItem :=
  [⟨idA, str "de", 3⟩, ⟨idA, str "en", 8⟩, ⟨idB, [], 13⟩]

/-- String pool for the listing example: payloads `PX`, `PXde`, `PXen`,
`PY` at offsets 0, 3, 8, 13. -/
def exPoolList : Pool := [str "PX", str "PXde", str "PXen", str "PY"]

/-- A `WriteEnv` in which every step succeeds. -/
def envOk : WriteEnv := ⟨true, true, true, true, true, true, true⟩

/-- Source files for the build examples: a language overlay file and a
default-language file sharing one id. -/
def exFiles : List SourceFile :=
  [(str "/x/a.en.catalog",
    [str "-- 0123456789abcdef0123456789abcdef", str "Subject: Test", [], str "Body A"]),
   (str "/x/b.catalog",
    [str "-- 0123456789abcdef0123456789abcdef", str "Body B"])]

/-- The 16 id bytes of `0123456789abcdef0123456789abcdef`. -/
def idEx : Str := [1, 35, 69, 103, 137, 171, 205, 239, 1, 35, 69, 103, 137, 171, 205, 239]

/-- The merge table `importAll exFiles` produces. -/
def tblEx : Table :=
  [(⟨idEx, str "en"⟩, str "Subject: Test" ++ [10, 10] ++ str "Body A" ++ [10]),
   (⟨idEx, []⟩, str "Body B" ++ [10])]

/-- The candidate language keys in the order claim C5 states them: the
requested locale stripped at the first `'.'` or `'@'`; then, if that tag
contains an underscore, the tag cut before the underscore; then the empty
(language-neutral) tag; for an absent, empty, `C` or `POSIX` locale only
the empty tag.  Stated from the claim's words, for comparison with the
source's `find_id`. -/
def locale_candidates (loc? : Option Str) : List Str :=
  match loc? with
  | none => [[]]
  | some loc =>
    if loc = [] ∨ loc = str "C" ∨ loc = str "POSIX" then [[]]
    else
      let t := loc.takeWhile (fun c => c != 46 && c != 64)
      t :: ((if t.contains 95 then [t.takeWhile (fun c => c != 95)] else []) ++ [[]])

/-- Claim C8's emission criterion, with `prev` the immediately preceding
record's id: a later record's id is kept exactly when it differs from
`prev`.  Stated from the claim's words, for comparison with
`catalog_list`'s `last_id` loop. -/
def adj_dedup_from (prev : Str) : List Str → List Str
  | [] => []
  | i :: rest => (if i = prev then [] else [i]) ++ adj_dedup_from i rest

/-- The ids claim C8 says a full listing emits: the first record's id, and
every later id that differs from the immediately preceding record's id. -/
def adj_dedup : List Str → List Str
  | [] => []
  | i :: rest => i :: adj_dedup_from i rest

/-- The per-id outcome of `catalog_list_items` (the body of its loop,
independent of every other id): parse the textual id, then `catalog_get`. -/
def item_result (items : List CatalogItem) (pool : Pool) (loc? : Option Str)
    (s : Str) : Except CatError Str :=
  match sd_id128_from_string s with
  | none => .error .einval
  | some id => catalog_get items pool loc? id

/-- The entries `catalog_list_items` emits: every id whose `item_result`
succeeds, in request order. -/
def items_emitted (items : List CatalogItem) (pool : Pool) (loc? : Option Str)
    (strs : List Str) : List (Str × Str) :=
  strs.filterMap (fun s =>
    match sd_id128_from_string s with
    | none => none
    | some id => (catalog_get items pool loc? id).toOption.map (fun msg => (id, msg)))

/-- The overall result of `catalog_list_items`: the first per-id error in
request order, success when there is none. -/
def items_first_error (items : List CatalogItem) (pool : Pool) (loc? : Option Str)
    (strs : List Str) : Except CatError Unit :=
  match strs.findSome? (fun s =>
      match item_result items pool loc? s with
      | .error e => some e
      | .ok _ => none) with
  | some e => .error e
  | none => .ok ()

/-! ### Claim theorems -/

theorem tbl_get_update_present : ∀ (h : Table) (k : CatalogKey) (v w : Str),
    tbl_get h k = some w → tbl_get (tbl_update h k v) k = some v := by
  intro h k v w
  induction h with
  | nil => intro hh; simp [tbl_get] at hh
  | cons p rest ih =>
    intro hh
    obtain ⟨k', v'⟩ := p
    by_cases hk : k' = k
    · simp [tbl_get, tbl_update, hk]
    · simp only [tbl_get, tbl_update, hk, if_false] at hh ⊢
      exact ih hh

/-- C1 (as amended): on a repeated `(id, language)` key the stored merge is
the header lines of the NEWLY imported payload, then the header lines of
the earlier-stored payload, and the newly imported payload's body when that
body is non-empty, otherwise the earlier-stored payload's body
(`finish_item` passes the new payload as `combine_entries`' first
argument). -/
theorem claim_C1 (h : Table) (id : Str) (language : Option Str)
    (pNew pOld : Str) (h' : Table)
    (hprev : tbl_get h ⟨id, language.getD []⟩ = some pOld)
    (hok : finish_item h id language pNew = .ok h') :
    tbl_get h' ⟨id, language.getD []⟩ =
      some (headerPart pNew ++ headerPart pOld ++
        (if bodyPart pNew ≠ [] then bodyPart pNew else bodyPart pOld)) := by
  unfold finish_item at hok
  by_cases hp : pNew.length = 0
  · simp [hp] at hok
  · rw [if_neg hp] at hok
    have hstore : finish_item.finish_item_store h ⟨id, language.getD []⟩ pNew = .ok h' := by
      cases language with
      | none => exact hok
      | some l =>
        simp only [Option.getD]
        have hok' :
            (if ¬(1 < l.length ∧ l.length < 32) then
              (Except.error CatError.assertFail : Except CatError Table)
            else finish_item.finish_item_store h ⟨id, l⟩ pNew) = .ok h' := hok
        by_cases hl : 1 < l.length ∧ l.length < 32
        · rw [if_neg (not_not_intro hl)] at hok'
          exact hok'
        · rw [if_pos hl] at hok'
          cases hok' 
    unfold finish_item.finish_item_store at hstore
    rw [hprev] at hstore
    cases hstore
    have := tbl_get_update_present h ⟨id, language.getD []⟩
      (combine_entries pNew pOld) pOld hprev
    simpa [combine_entries] using this

/-- C1 witness: the amended merge rule evaluated on the example payloads. -/
theorem claim_C1_witness :
    tbl_get [(⟨idA, []⟩, pOldEx)] ⟨idA, (none : Option Str).getD []⟩ = some pOldEx ∧
    tbl_get (tbl_update [(⟨idA, []⟩, pOldEx)] ⟨idA, []⟩ (combine_entries pNewEx pOldEx))
        ⟨idA, (none : Option Str).getD []⟩ =
      some (headerPart pNewEx ++ headerPart pOldEx ++
        (if bodyPart pNewEx ≠ [] then bodyPart pNewEx else bodyPart pOldEx)) :=
  ⟨by decide, claim_C1 [(⟨idA, []⟩, pOldEx)] idA none pNewEx pOldEx _ (by decide) (by decide)⟩

/-- C1 counterexample: the claim's stated merge (earlier-stored headers
first, earlier-stored body preferred) differs from what the code stores:
merging new payload `Defined-By: B\n\nBody B\n` into stored
`Subject: A\n\nBody A\n` yields `Defined-By: B\nSubject: A\n\nBody B\n`,
not the claimed `Subject: A\nDefined-By: B\n\nBody A\n`. -/
theorem claim_C1_counterexample :
    finish_item [(⟨idA, []⟩, pOldEx)] idA none pNewEx =
      .ok [(⟨idA, []⟩,
        str "Defined-By: B" ++ [10] ++ str "Subject: A" ++ [10, 10] ++ str "Body B" ++ [10])] ∧
    str "Defined-By: B" ++ [10] ++ str "Subject: A" ++ [10, 10] ++ str "Body B" ++ [10] ≠
      merge_as_claimed pOldEx pNewEx ∧
    merge_as_claimed pOldEx pNewEx =
      str "Subject: A" ++ [10] ++ str "Defined-By: B" ++ [10, 10] ++ str "Body A" ++ [10] := by
  decide

/-- C3: `catalog_entry_lang` accepts a language tag of length 1 (only
length 0 is "too short" and length > 31 "too long"), but `finish_item`
then `assert`s `strlen(language) > 1`, so a validated one-byte tag — here
`"a"`, both as an explicit tag and end-to-end through
`catalog_import_file` — aborts on the assertion instead of being stored. -/
theorem claim_C3 :
    catalog_entry_lang (str "a") none = .ok (some (str "a")) ∧
    finish_item [] idA (some (str "a")) (str "x" ++ [10]) = .error .assertFail ∧
    catalog_import_file [] (str "/foo.catalog")
      [str "-- 0123456789abcdef0123456789abcdef a", str "x"] = .error .assertFail ∧
    catalog_entry_lang [] none = .error .einval ∧
    catalog_entry_lang (List.replicate 32 97) none = .error .einval := by
  decide

/-- C4: the open-time size validation can be defeated by 64-bit overflow:
`overflowFile` is 48 bytes but declares `header_size + item_size * n_items
= 40 + 2^60 * 16`, far larger than the file; the C comparison wraps modulo
`2 ^ 64` to 40 and `open_mmap` accepts the file instead of failing with the
claimed corruption error. -/
theorem claim_C4 :
    open_mmap overflowFile = ⟨.ok (), false, true⟩ ∧
    overflowFile.length = 48 ∧
    readLE overflowFile 16 8 = 40 ∧
    readLE overflowFile 24 8 = 16 ∧
    readLE overflowFile 32 8 = 2 ^ 60 ∧
    overflowFile.length < 40 + 2 ^ 60 * 16 := by
  decide

theorem cmpList_eq_iff : ∀ (a b : Str), cmpList a b = .eq ↔ a = b := by
  intro a
  induction a with
  | nil => intro b; cases b <;> simp [cmpList]
  | cons x xs ih =>
    intro b
    cases b with
    | nil => simp [cmpList]
    | cons y ys =>
      by_cases hxy : x < y
      · rw [cmpList, if_pos hxy]
        constructor
        · intro hh; cases hh
        · intro hh; injection hh with h1 h2; omega
      · by_cases hyx : y < x
        · rw [cmpList, if_neg hxy, if_pos hyx]
          constructor
          · intro hh; cases hh
          · intro hh; injection hh with h1 h2; omega
        · have hx : x = y := by omega
          subst hx
          rw [cmpList, if_neg hxy, if_neg hyx]
          simp [ih ys]

theorem cmpList_swap : ∀ (a b : Str), cmpList b a = (cmpList a b).swap := by
  intro a
  induction a with
  | nil => intro b; cases b <;> simp [cmpList, Ordering.swap]
  | cons x xs ih =>
    intro b
    cases b with
    | nil => simp [cmpList, Ordering.swap]
    | cons y ys =>
      by_cases hxy : x < y
      · have hyx : ¬y < x := by omega
        simp [cmpList, hxy, hyx, Ordering.swap]
      · by_cases hyx : y < x
        · simp [cmpList, hxy, hyx, Ordering.swap]
        · simp [cmpList, hxy, hyx, ih ys]

theorem cmpList_lt_trans : ∀ (a b c : Str),
    cmpList a b = .lt → cmpList b c = .lt → cmpList a c = .lt := by
  intro a
  induction a with
  | nil =>
    intro b c hab hbc
    cases c with
    | nil => cases b <;> simp [cmpList] at hbc
    | cons z zs => simp [cmpList]
  | cons x xs ih =>
    intro b c hab hbc
    cases b with
    | nil => simp [cmpList] at hab
    | cons y ys =>
      cases c with
      | nil => simp [cmpList] at hbc
      | cons z zs =>
        have hab' : x < y ∨ (x = y ∧ cmpList xs ys = .lt) := by
          by_cases hxy : x < y
          · exact .inl hxy
          · by_cases hyx : y < x
            · rw [cmpList, if_neg hxy, if_pos hyx] at hab; cases hab
            · refine .inr ⟨by omega, ?_⟩
              rwa [cmpList, if_neg hxy, if_neg hyx] at hab
        have hbc' : y < z ∨ (y = z ∧ cmpList ys zs = .lt) := by
          by_cases hyz : y < z
          · exact .inl hyz
          · by_cases hzy : z < y
            · rw [cmpList, if_neg hyz, if_pos hzy] at hbc; cases hbc
            · refine .inr ⟨by omega, ?_⟩
              rwa [cmpList, if_neg hyz, if_neg hzy] at hbc
        rcases hab' with hxy | ⟨hxy, hrab⟩ <;> rcases hbc' with hyz | ⟨hyz, hrbc⟩
        · rw [cmpList, if_pos (by omega : x < z)]
        · rw [cmpList, if_pos (by omega : x < z)]
        · rw [cmpList, if_pos (by omega : x < z)]
        · have hxz : x = z := by omega
          subst hxy; subst hyz
          rw [cmpList, if_neg (by omega : ¬x < x), if_neg (by omega : ¬x < x)]
          exact ih ys zs hrab hrbc

theorem cmpList_ne_gt_iff (a b : Str) :
    cmpList a b ≠ .gt ↔ (cmpList a b = .lt ∨ a = b) := by
  cases h : cmpList a b <;>
    simp [← cmpList_eq_iff a b, h]

theorem item_le_iff (i j : CatalogItem) : item_le i j ↔
    (cmpList i.id j.id = .lt ∨
      (i.id = j.id ∧ cmpList i.language j.language ≠ .gt)) := by
  unfold item_le item_cmp catalog_compare_func
  cases h : cmpList i.id j.id with
  | lt => simp [(cmpList_eq_iff i.id j.id).mp, h]
  | eq => simp [(cmpList_eq_iff i.id j.id).mp h]
  | gt =>
    have hne : ¬i.id = j.id := by
      intro he
      rw [(cmpList_eq_iff i.id j.id).mpr he] at h
      cases h
    simp [hne]

instance : IsTrans CatalogItem item_le := by
  constructor
  intro a b c hab hbc
  rw [item_le_iff] at hab hbc ⊢
  rcases hab with hab | ⟨hab, hlab⟩ <;> rcases hbc with hbc | ⟨hbc, hlbc⟩
  · exact .inl (cmpList_lt_trans _ _ _ hab hbc)
  · exact .inl (hbc ▸ hab)
  · exact .inl (hab ▸ hbc)
  · refine .inr ⟨hab.trans hbc, ?_⟩
    rw [cmpList_ne_gt_iff] at hlab hlbc ⊢
    rcases hlab with hlab | hlab <;> rcases hlbc with hlbc | hlbc
    · exact .inl (cmpList_lt_trans _ _ _ hlab hlbc)
    · exact .inl (hlbc ▸ hlab)
    · exact .inl (hlab ▸ hlbc)
    · exact .inr (hlab.trans hlbc)

instance : IsTotal CatalogItem item_le := by
  constructor
  intro a b
  rw [item_le_iff, item_le_iff]
  cases h : cmpList a.id b.id with
  | lt => exact .inl (.inl rfl)
  | gt =>
    refine .inr (.inl ?_)
    rw [cmpList_swap a.id b.id, h]
    rfl
  | eq =>
    have he := (cmpList_eq_iff a.id b.id).mp h
    cases hl : cmpList a.language b.language with
    | lt => exact .inl (.inr ⟨he, by simp [hl]⟩)
    | eq => exact .inl (.inr ⟨he, by simp [hl]⟩)
    | gt =>
      refine .inr (.inr ⟨he.symm, ?_⟩)
      rw [cmpList_swap a.language b.language, hl]
      simp [Ordering.swap]

/-- C6: the record table of every built catalog file is sorted ascending by
`catalog_compare_func` — adjacent records satisfy `(id bytes, language)` ≤,
with the id bytes compared most-significant byte first and the empty
language comparing below every non-empty language (third conjunct). -/
theorem claim_C6 :
    (∀ (tbl : Table), List.Chain' item_le (build_items tbl)) ∧
    (∀ (items : List CatalogItem), List.Chain' item_le (sort_items items)) ∧
    (∀ (c : Nat) (cs : Str), cmpList [] (c :: cs) = .lt) := by
  refine ⟨fun tbl => ?_, fun items => ?_, fun c cs => rfl⟩
  · exact List.chain'_iff_pairwise.mpr (List.sorted_insertionSort item_le _)
  · exact List.chain'_iff_pairwise.mpr (List.sorted_insertionSort item_le _)

theorem leBytes_length : ∀ (w m : Nat), (leBytes w m).length = w := by
  intro w
  induction w with
  | zero => intro m; rfl
  | succ w ih => intro m; simp [leBytes, ih]

theorem readLE_cons (c : Nat) (l : Str) :
    ∀ (w off : Nat), readLE (c :: l) (off + 1) w = readLE l off w := by
  intro w
  induction w with
  | zero => intro off; rfl
  | succ w ih =>
    intro off
    rw [readLE, readLE, List.getD_cons_succ]
    have := ih (off + 1)
    rw [show off + 1 + 1 = off + 2 from rfl] at this
    rw [this]

theorem readLE_append_right :
    ∀ (l1 l2 : Str) (w off : Nat), readLE (l1 ++ l2) (l1.length + off) w = readLE l2 off w := by
  intro l1
  induction l1 with
  | nil => intro l2 w off; simp
  | cons c cs ih =>
    intro l2 w off
    have hc : (c :: cs) ++ l2 = c :: (cs ++ l2) := rfl
    have hl : (c :: cs).length + off = (cs.length + off) + 1 := by simp; omega
    rw [hc, hl, readLE_cons, ih]

theorem readLE_leBytes : ∀ (w m : Nat) (rest : Str),
    readLE (leBytes w m ++ rest) 0 w = m % 256 ^ w := by
  intro w
  induction w with
  | zero => intro m rest; simp [readLE, Nat.mod_one]
  | succ w ih =>
    intro m rest
    rw [leBytes]
    have hc : (m % 256 :: leBytes w (m / 256)) ++ rest =
        m % 256 :: (leBytes w (m / 256) ++ rest) := rfl
    rw [hc, readLE, List.getD_cons_zero, readLE_cons, ih]
    rw [pow_succ, mul_comm (256 ^ w) 256, Nat.mod_mul]

theorem header_fields (n : Nat) (tail : Str) :
    readLE (header_bytes n ++ tail) 16 8 = 40 ∧
    readLE (header_bytes n ++ tail) 24 8 = n % 2 ^ 64 ∧
    readLE (header_bytes n ++ tail) 32 8 = 56 ∧
    readLE (header_bytes n ++ tail) 12 4 = 0 ∧
    (header_bytes n ++ tail).take 8 = CATALOG_SIGNATURE := by
  have hsig : CATALOG_SIGNATURE.length = 8 := by decide
  have hassoc : header_bytes n ++ tail =
      CATALOG_SIGNATURE ++ (leBytes 4 0 ++ (leBytes 4 0 ++ (leBytes 8 headerSize ++
        (leBytes 8 n ++ (leBytes 8 itemSize ++ tail))))) := by
    simp [header_bytes, List.append_assoc]
  refine ⟨?_, ?_, ?_, ?_, ?_⟩
  · have h16 : header_bytes n ++ tail =
        (CATALOG_SIGNATURE ++ leBytes 4 0 ++ leBytes 4 0) ++
          (leBytes 8 headerSize ++ (leBytes 8 n ++ (leBytes 8 itemSize ++ tail))) := by
      simp [header_bytes, List.append_assoc]
    have hlen : (CATALOG_SIGNATURE ++ leBytes 4 0 ++ leBytes 4 0).length = 16 := by
      simp [hsig, leBytes_length]
    have := readLE_append_right (CATALOG_SIGNATURE ++ leBytes 4 0 ++ leBytes 4 0)
      (leBytes 8 headerSize ++ (leBytes 8 n ++ (leBytes 8 itemSize ++ tail))) 8 0
    rw [hlen] at this
    rw [h16, this, readLE_leBytes]
    rfl
  · have h24 : header_bytes n ++ tail =
        (CATALOG_SIGNATURE ++ leBytes 4 0 ++ leBytes 4 0 ++ leBytes 8 headerSize) ++
          (leBytes 8 n ++ (leBytes 8 itemSize ++ tail)) := by
      simp [header_bytes, List.append_assoc]
    have hlen : (CATALOG_SIGNATURE ++ leBytes 4 0 ++ leBytes 4 0 ++
        leBytes 8 headerSize).length = 24 := by
      simp [hsig, leBytes_length]
    have := readLE_append_right
      (CATALOG_SIGNATURE ++ leBytes 4 0 ++ leBytes 4 0 ++ leBytes 8 headerSize)
      (leBytes 8 n ++ (leBytes 8 itemSize ++ tail)) 8 0
    rw [hlen] at this
    rw [h24, this, readLE_leBytes]
    norm_num
  · have h32 : header_bytes n ++ tail =
        (CATALOG_SIGNATURE ++ leBytes 4 0 ++ leBytes 4 0 ++ leBytes 8 headerSize ++
          leBytes 8 n) ++ (leBytes 8 itemSize ++ tail) := by
      simp [header_bytes, List.append_assoc]
    have hlen : (CATALOG_SIGNATURE ++ leBytes 4 0 ++ leBytes 4 0 ++
        leBytes 8 headerSize ++ leBytes 8 n).length = 32 := by
      simp [hsig, leBytes_length]
    have := readLE_append_right
      (CATALOG_SIGNATURE ++ leBytes 4 0 ++ leBytes 4 0 ++ leBytes 8 headerSize ++
        leBytes 8 n) (leBytes 8 itemSize ++ tail) 8 0
    rw [hlen] at this
    rw [h32, this, readLE_leBytes]
    rfl
  · have h12 : header_bytes n ++ tail =
        (CATALOG_SIGNATURE ++ leBytes 4 0) ++
          (leBytes 4 0 ++ (leBytes 8 headerSize ++ (leBytes 8 n ++ (leBytes 8 itemSize ++ tail)))) := by
      simp [header_bytes, List.append_assoc]
    have hlen : (CATALOG_SIGNATURE ++ leBytes 4 0).length = 12 := by
      simp [hsig, leBytes_length]
    have := readLE_append_right (CATALOG_SIGNATURE ++ leBytes 4 0)
      (leBytes 4 0 ++ (leBytes 8 headerSize ++ (leBytes 8 n ++ (leBytes 8 itemSize ++ tail)))) 4 0
    rw [hlen] at this
    rw [h12, this, readLE_leBytes]
    rfl
  · rw [hassoc, List.take_left' hsig]

/-- C7: `write_catalog` leaves no temporary file behind on any path; on
success the target path holds exactly header, record array and string pool
(in that order), the header declaring `header_size = 40` (the 8-byte-aligned
compiled header size), `n_items` = the record count, `catalog_item_size =
56` (the compiled record size), zero incompatible flags and the intact
signature; on any failure (mkdir, temporary-file open, any of the three
writes, flush, rename) the target path is exactly what it was before. -/
theorem claim_C7 (env : WriteEnv) (st : FsState) (items : List CatalogItem)
    (pool : Pool) (htemp : st.temp = none) :
    ((write_catalog env st items pool).2.temp = none) ∧
    (∀ sz, (write_catalog env st items pool).1 = .ok sz →
      (write_catalog env st items pool).2.target =
        some (header_bytes items.length ++ items_bytes items ++ pool_bytes pool) ∧
      sz = (header_bytes items.length ++ items_bytes items ++ pool_bytes pool).length) ∧
    (∀ e, (write_catalog env st items pool).1 = .error e →
      (write_catalog env st items pool).2.target = st.target) ∧
    (∀ sz b, (write_catalog env st items pool).1 = .ok sz →
      (write_catalog env st items pool).2.target = some b →
      readLE b 16 8 = 40 ∧ readLE b 24 8 = items.length % 2 ^ 64 ∧
      readLE b 32 8 = 56 ∧ readLE b 12 4 = 0 ∧ b.take 8 = CATALOG_SIGNATURE) := by
  obtain ⟨mk, fo, w1, w2, w3, fl, rn⟩ := env
  have hfields := header_fields items.length (items_bytes items ++ pool_bytes pool)
  rw [← List.append_assoc] at hfields
  cases mk with
  | false =>
    have heq : write_catalog ⟨false, fo, w1, w2, w3, fl, rn⟩ st items pool =
        (.error .mkdirFailed, st) := rfl
    rw [heq]
    exact ⟨htemp, by simp, fun e _ => rfl, by simp⟩
  | true =>
  cases fo with
  | false =>
    have heq : write_catalog ⟨true, false, w1, w2, w3, fl, rn⟩ st items pool =
        (.error .openFailed, st) := rfl
    rw [heq]
    exact ⟨htemp, by simp, fun e _ => rfl, by simp⟩
  | true =>
  cases w1 with
  | false =>
    have heq : write_catalog ⟨true, true, false, w2, w3, fl, rn⟩ st items pool =
        (.error .eio, { st with temp := none }) := rfl
    rw [heq]
    exact ⟨rfl, by simp, fun e _ => rfl, by simp⟩
  | true =>
  cases w2 with
  | false =>
    have heq : write_catalog ⟨true, true, true, false, w3, fl, rn⟩ st items pool =
        (.error .eio, { st with temp := none }) := rfl
    rw [heq]
    exact ⟨rfl, by simp, fun e _ => rfl, by simp⟩
  | true =>
  cases w3 with
  | false =>
    have heq : write_catalog ⟨true, true, true, true, false, fl, rn⟩ st items pool =
        (.error .eio, { st with temp := none }) := rfl
    rw [heq]
    exact ⟨rfl, by simp, fun e _ => rfl, by simp⟩
  | true =>
  cases fl with
  | false =>
    have heq : write_catalog ⟨true, true, true, true, true, false, rn⟩ st items pool =
        (.error .eio, { st with temp := none }) := rfl
    rw [heq]
    exact ⟨rfl, by simp, fun e _ => rfl, by simp⟩
  | true =>
  cases rn with
  | false =>
    have heq : write_catalog ⟨true, true, true, true, true, true, false⟩ st items pool =
        (.error .eio, { st with temp := none }) := rfl
    rw [heq]
    exact ⟨rfl, by simp, fun e _ => rfl, by simp⟩
  | true =>
    have heq : write_catalog ⟨true, true, true, true, true, true, true⟩ st items pool =
        (.ok ((header_bytes items.length ++ items_bytes items ++ pool_bytes pool).length),
         ⟨some (header_bytes items.length ++ items_bytes items ++ pool_bytes pool), none⟩) := rfl
    rw [heq]
    refine ⟨rfl, ?_, by simp, ?_⟩
    · intro sz hok
      simp only [Except.ok.injEq] at hok
      exact ⟨rfl, hok.symm⟩
    · intro sz b hok htgt
      simp only [Option.some.injEq] at htgt
      rw [← htgt]
      exact hfields

theorem write_catalog_ok_target (env : WriteEnv) (st : FsState)
    (items : List CatalogItem) (pool : Pool) (r : Nat) (st' : FsState)
    (hw : write_catalog env st items pool = (.ok r, st')) :
    st'.target = some (header_bytes items.length ++ items_bytes items ++ pool_bytes pool) := by
  obtain ⟨mk, fo, w1, w2, w3, fl, rn⟩ := env
  cases mk with
  | false =>
    rw [show write_catalog ⟨false, fo, w1, w2, w3, fl, rn⟩ st items pool =
      (.error .mkdirFailed, st) from rfl] at hw
    cases hw
  | true =>
  cases fo with
  | false =>
    rw [show write_catalog ⟨true, false, w1, w2, w3, fl, rn⟩ st items pool =
      (.error .openFailed, st) from rfl] at hw
    cases hw
  | true =>
  cases w1 with
  | false =>
    rw [show write_catalog ⟨true, true, false, w2, w3, fl, rn⟩ st items pool =
      (.error .eio, { st with temp := none }) from rfl] at hw
    cases hw
  | true =>
  cases w2 with
  | false =>
    rw [show write_catalog ⟨true, true, true, false, w3, fl, rn⟩ st items pool =
      (.error .eio, { st with temp := none }) from rfl] at hw
    cases hw
  | true =>
  cases w3 with
  | false =>
    rw [show write_catalog ⟨true, true, true, true, false, fl, rn⟩ st items pool =
      (.error .eio, { st with temp := none }) from rfl] at hw
    cases hw
  | true =>
  cases fl with
  | false =>
    rw [show write_catalog ⟨true, true, true, true, true, false, rn⟩ st items pool =
      (.error .eio, { st with temp := none }) from rfl] at hw
    cases hw
  | true =>
  cases rn with
  | false =>
    rw [show write_catalog ⟨true, true, true, true, true, true, false⟩ st items pool =
      (.error .eio, { st with temp := none }) from rfl] at hw
    cases hw
  | true =>
    rw [show write_catalog ⟨true, true, true, true, true, true, true⟩ st items pool =
      (.ok ((header_bytes items.length ++ items_bytes items ++ pool_bytes pool).length),
       ⟨some (header_bytes items.length ++ items_bytes items ++ pool_bytes pool), none⟩)
      from rfl] at hw
    simp only [Prod.mk.injEq] at hw
    rw [← hw.2]

/-- C2: determinism of the build — two runs over the same ordered source
list, from different initial filesystem states and with independently
injected step outcomes, write byte-identical catalog files whenever both
succeed: the produced bytes (header, record array, string pool) are a
function of the source list alone. -/
theorem claim_C2 (fs : List SourceFile) (env1 env2 : WriteEnv) (st1 st2 : FsState)
    (tbl : Table) (himp : importAll fs = .ok tbl) (hne : ¬tbl.length = 0)
    (h1 : (catalog_update fs env1 st1).1 = .ok ())
    (h2 : (catalog_update fs env2 st2).1 = .ok ()) :
    (catalog_update fs env1 st1).2.target = (catalog_update fs env2 st2).2.target ∧
    (catalog_update fs env1 st1).2.target =
      some (header_bytes (build_items tbl).length ++ items_bytes (build_items tbl) ++
        pool_bytes (build_pool tbl)) := by
  have key : ∀ (env : WriteEnv) (st : FsState),
      (catalog_update fs env st).1 = .ok () →
      (catalog_update fs env st).2.target =
        some (header_bytes (build_items tbl).length ++ items_bytes (build_items tbl) ++
          pool_bytes (build_pool tbl)) := by
    intro env st hok
    unfold catalog_update at hok ⊢
    rw [himp] at hok ⊢
    simp only [if_neg hne] at hok ⊢
    rcases hwc : write_catalog env st (build_items tbl) (build_pool tbl) with ⟨r, st'⟩
    rw [hwc] at hok
    cases r with
    | error e =>
      exact nomatch (show (Except.error e : Except CatError Unit) = Except.ok () from hok)
    | ok a => exact write_catalog_ok_target env st (build_items tbl) (build_pool tbl) a st' hwc
  exact ⟨(key env1 st1 h1).trans (key env2 st2 h2).symm, key env1 st1 h1⟩

/-- C2 witness: the example build run twice, from an empty filesystem and
over a stale target file, yields the same bytes. -/
theorem claim_C2_witness :
    importAll exFiles = .ok tblEx ∧ ¬tblEx.length = 0 ∧
    (catalog_update exFiles envOk ⟨none, none⟩).1 = .ok () ∧
    (catalog_update exFiles envOk ⟨some [1, 2, 3], none⟩).1 = .ok () ∧
    ((catalog_update exFiles envOk ⟨none, none⟩).2.target =
      (catalog_update exFiles envOk ⟨some [1, 2, 3], none⟩).2.target ∧
    (catalog_update exFiles envOk ⟨none, none⟩).2.target =
      some (header_bytes (build_items tblEx).length ++ items_bytes (build_items tblEx) ++
        pool_bytes (build_pool tblEx))) :=
  ⟨by decide, by decide, by decide, by decide,
   claim_C2 exFiles envOk envOk ⟨none, none⟩ ⟨some [1, 2, 3], none⟩ tblEx
     (by decide) (by decide) (by decide) (by decide)⟩

/-- C7 witness: a concrete one-record write over a stale target file. -/
theorem claim_C7_witness :
    (FsState.mk (some (str "old")) none).temp = none ∧
    (((write_catalog envOk ⟨some (str "old"), none⟩ [⟨idA, [], 0⟩] [str "P"]).2.temp = none) ∧
    (∀ sz, (write_catalog envOk ⟨some (str "old"), none⟩ [⟨idA, [], 0⟩] [str "P"]).1 = .ok sz →
      (write_catalog envOk ⟨some (str "old"), none⟩ [⟨idA, [], 0⟩] [str "P"]).2.target =
        some (header_bytes [(⟨idA, [], 0⟩ : CatalogItem)].length ++
          items_bytes [⟨idA, [], 0⟩] ++ pool_bytes [str "P"]) ∧
      sz = (header_bytes [(⟨idA, [], 0⟩ : CatalogItem)].length ++
          items_bytes [⟨idA, [], 0⟩] ++ pool_bytes [str "P"]).length) ∧
    (∀ e, (write_catalog envOk ⟨some (str "old"), none⟩ [⟨idA, [], 0⟩] [str "P"]).1 = .error e →
      (write_catalog envOk ⟨some (str "old"), none⟩ [⟨idA, [], 0⟩] [str "P"]).2.target =
        (FsState.mk (some (str "old")) none).target) ∧
    (∀ sz b, (write_catalog envOk ⟨some (str "old"), none⟩ [⟨idA, [], 0⟩] [str "P"]).1 = .ok sz →
      (write_catalog envOk ⟨some (str "old"), none⟩ [⟨idA, [], 0⟩] [str "P"]).2.target = some b →
      readLE b 16 8 = 40 ∧
      readLE b 24 8 = [(⟨idA, [], 0⟩ : CatalogItem)].length % 2 ^ 64 ∧
      readLE b 32 8 = 56 ∧ readLE b 12 4 = 0 ∧ b.take 8 = CATALOG_SIGNATURE)) :=
  ⟨rfl, claim_C7 envOk ⟨some (str "old"), none⟩ [⟨idA, [], 0⟩] [str "P"] rfl⟩

/-- C5: `find_id` tries candidate language keys in the claimed order with
the first hit winning — the stripped locale, then (if it has an
underscore) its pre-underscore part, then the language-neutral empty tag,
and only the empty tag for an absent/empty/`C`/`POSIX` locale (stated for
locales of at most 31 bytes, the length of the fixed on-disk language
field; also checked on the claim's concrete example table). -/
theorem claim_C5 :
    (∀ (items : List CatalogItem) (loc? : Option Str) (id : Str),
      (∀ l, loc? = some l → l.length ≤ 31) →
      find_id items loc? id =
        (locale_candidates loc?).findSome? (fun lang => lookup_item items id lang)) ∧
    (find_id exItemsLang (some (str "en_US.UTF-8")) idA = some ⟨idA, str "en", 8⟩) ∧
    (find_id exItemsLang (some (str "fr_FR.UTF-8")) idA = some ⟨idA, [], 0⟩) ∧
    (find_id exItemsLang (some (str "de_DE")) idA = some ⟨idA, str "de", 3⟩) ∧
    (find_id exItemsLang (some (str "C")) idA = some ⟨idA, [], 0⟩) ∧
    (find_id exItemsLang (some (str "POSIX")) idA = some ⟨idA, [], 0⟩) ∧
    (find_id exItemsLang none idA = some ⟨idA, [], 0⟩) ∧
    (find_id exItemsLang (some []) idA = some ⟨idA, [], 0⟩) := by
  refine ⟨?_, by decide, by decide, by decide, by decide, by decide, by decide, by decide⟩
  intro items loc? id hlen
  cases loc? with
  | none =>
    simp only [find_id, locale_candidates, List.findSome?_cons, List.findSome?_nil]
    cases hk : lookup_item items id [] <;> rfl
  | some loc =>
    have h32 : loc.take 32 = loc := List.take_of_length_le (by
      have := hlen loc rfl
      omega)
    simp only [find_id, locale_candidates]
    by_cases htriv : loc = [] ∨ loc = str "C" ∨ loc = str "POSIX"
    · rw [if_pos htriv, if_pos htriv]
      simp only [List.findSome?_cons, List.findSome?_nil]
      cases hk : lookup_item items id [] <;> rfl
    · rw [if_neg htriv, if_neg htriv, h32]
      simp only [List.findSome?_cons]
      cases hk1 : lookup_item items id (loc.takeWhile (fun c => c != 46 && c != 64)) with
      | some f => rfl
      | none =>
        by_cases hus : (loc.takeWhile (fun c => c != 46 && c != 64)).contains 95
        · rw [if_pos hus, if_pos hus]
          simp only [List.cons_append, List.nil_append, List.findSome?_cons,
            List.findSome?_nil]
          cases hk2 : lookup_item items id
              ((loc.takeWhile (fun c => c != 46 && c != 64)).takeWhile (fun c => c != 95)) with
          | some f => rfl
          | none => cases hk3 : lookup_item items id [] <;> rfl
        · rw [if_neg hus, if_neg hus]
          simp only [List.nil_append, List.findSome?_cons, List.findSome?_nil]
          cases hk3 : lookup_item items id [] <;> rfl

theorem list_loop_spec (allItems : List CatalogItem) (pool : Pool) (loc? : Option Str) :
    ∀ (rest : List CatalogItem) (prev : Str),
      (∀ it ∈ rest, (find_id allItems loc? it.id).isSome = true) →
      list_loop allItems pool loc? rest (some prev) =
        .ok ((adj_dedup_from prev (rest.map CatalogItem.id)).map
          (fun i => (i, match find_id allItems loc? i with
                        | some f => pool_read pool f.offset
                        | none => []))) := by
  intro rest
  induction rest with
  | nil => intro prev _; rfl
  | cons it rest ih =>
    intro prev hall
    have hit : (find_id allItems loc? it.id).isSome = true := hall it (by simp)
    have hrest : ∀ i ∈ rest, (find_id allItems loc? i.id).isSome = true :=
      fun i hi => hall i (by simp [hi])
    cases hfi : find_id allItems loc? it.id with
    | none => rw [hfi] at hit; cases hit
    | some f =>
      by_cases heq : it.id = prev
      · rw [list_loop, if_pos (by rw [heq])]
        rw [ih prev hrest]
        simp only [List.map_cons, adj_dedup_from, if_pos heq, List.nil_append]
        rw [← heq]
      · rw [list_loop, if_neg (by intro hsp; injection hsp with hp; exact heq hp.symm :
          ¬(some prev = some it.id)), hfi]
        rw [ih it.id hrest]
        simp only [Except.map, List.map_cons, adj_dedup_from, if_neg heq,
          List.cons_append, List.nil_append, List.map]
        rw [hfi]

/-- C8 (as amended): full listing walks the record table in order and, as
the claim states, emits exactly the records whose id differs from the
immediately preceding record's id, each resolved through the same
locale-fallback lookup — PROVIDED that lookup resolves every listed id
(e.g. locale `en_US.UTF-8` on the example database, second conjunct).
When it does not — locale `C` with an id present only under non-empty
languages — `catalog_list`'s `assert_se` fires instead (see the
counterexample). -/
theorem claim_C8 :
    (∀ (items : List CatalogItem) (pool : Pool) (loc? : Option Str),
      (∀ it ∈ items, (find_id items loc? it.id).isSome = true) →
      catalog_list items pool loc? =
        .ok ((adj_dedup (items.map CatalogItem.id)).map
          (fun i => (i, match find_id items loc? i with
                        | some f => pool_read pool f.offset
                        | none => [])))) ∧
    (catalog_list exItemsList exPoolList (some (str "en_US.UTF-8")) =
      .ok [(idA, str "PXen"), (idB, str "PY")]) := by
  refine ⟨?_, by decide⟩
  intro items pool loc? hall
  cases items with
  | nil => rfl
  | cons it rest =>
    have hit : (find_id (it :: rest) loc? it.id).isSome = true := hall it (by simp)
    have hrest : ∀ i ∈ rest, (find_id (it :: rest) loc? i.id).isSome = true :=
      fun i hmem => hall i (by simp [hmem])
    cases hfi : find_id (it :: rest) loc? it.id with
    | none => rw [hfi] at hit; cases hit
    | some f =>
      show list_loop (it :: rest) pool loc? (it :: rest) none = _
      rw [list_loop, if_neg (by simp : ¬((none : Option Str) = some it.id)), hfi]
      rw [list_loop_spec (it :: rest) pool loc? rest it.id hrest]
      simp only [Except.map, List.map_cons, adj_dedup, List.map]
      rw [hfi]

/-- C8 counterexample: on the claim's own example database — id `idA`
present only under `"de"` and `"en"`, id `idB` under `""` — listing under
locale `C` does not emit two entries: `find_id` misses `(idA, "")` and the
`assert_se` in `catalog_list` fires (the process aborts), so the claim's
unconditional "emits exactly one entry per distinct id" fails. -/
theorem claim_C8_counterexample :
    catalog_list exItemsList exPoolList (some (str "C")) = .error .assertFail := by
  decide

/-- C8 witness: the amended listing equation evaluated on the example
database under locale `en_US.UTF-8`. -/
theorem claim_C8_witness :
    (∀ it ∈ exItemsList,
      (find_id exItemsList (some (str "en_US.UTF-8")) it.id).isSome = true) ∧
    catalog_list exItemsList exPoolList (some (str "en_US.UTF-8")) =
      .ok ((adj_dedup (exItemsList.map CatalogItem.id)).map
        (fun i => (i, match find_id exItemsList (some (str "en_US.UTF-8")) i with
                      | some f => pool_read exPoolList f.offset
                      | none => []))) :=
  ⟨by decide, claim_C8.1 exItemsList exPoolList (some (str "en_US.UTF-8")) (by decide)⟩

theorem list_items_loop_spec (items : List CatalogItem) (pool : Pool) (loc? : Option Str) :
    ∀ (strs : List Str) (r : Except CatError Unit),
      list_items_loop items pool loc? strs r =
        (items_emitted items pool loc? strs,
         match r with
         | .error e => .error e
         | .ok _ => items_first_error items pool loc? strs) := by
  intro strs
  induction strs with
  | nil =>
    intro r
    cases r with
    | error e => rfl
    | ok u => cases u; rfl
  | cons s rest ih =>
    intro r
    rw [list_items_loop]
    cases hp : sd_id128_from_string s with
    | none =>
      cases r with
      | error e =>
        simp [ih, items_emitted, items_first_error, item_result, List.filterMap_cons,
          hp, first_err, List.findSome?_cons, Except.toOption]
      | ok u =>
        cases u
        simp [ih, items_emitted, items_first_error, item_result, List.filterMap_cons,
          hp, first_err, List.findSome?_cons, Except.toOption]
    | some id =>
      cases hg : catalog_get items pool loc? id with
      | error k =>
        cases r with
        | error e =>
          simp [ih, items_emitted, items_first_error, item_result, List.filterMap_cons,
            hp, hg, first_err, List.findSome?_cons, Except.toOption]
        | ok u =>
          cases u
          simp [ih, items_emitted, items_first_error, item_result, List.filterMap_cons,
            hp, hg, first_err, List.findSome?_cons, Except.toOption]
      | ok msg =>
        cases r with
        | error e =>
          simp [ih, items_emitted, items_first_error, item_result, List.filterMap_cons,
            hp, hg, first_err, List.findSome?_cons, Except.toOption]
        | ok u =>
          cases u
          simp [ih, items_emitted, items_first_error, item_result, List.filterMap_cons,
            hp, hg, first_err, List.findSome?_cons, Except.toOption]

/-- C9: `catalog_list_items` processes each textual id independently and in
request order — it emits exactly the entries whose id parses and resolves
(`items_emitted`), a parse failure or a not-found/open failure never stops
the remaining ids, and the returned value is the first per-id error in
request order, success when there was none (`items_first_error`). -/
theorem claim_C9 :
    ∀ (items : List CatalogItem) (pool : Pool) (loc? : Option Str) (strs : List Str),
      catalog_list_items items pool loc? strs =
        (items_emitted items pool loc? strs, items_first_error items pool loc? strs) := by
  intro items pool loc? strs
  rw [catalog_list_items, list_items_loop_spec]

/-- C10: an empty catalog is never produced and never accepted.  When the
merge table is empty, `catalog_update` returns success and the filesystem —
target file included — is exactly as before, nothing written; `open_mmap`
rejects any header-bearing file declaring zero records with the corruption
error; consequently every file that opens successfully declares at least
one record. -/
theorem claim_C10 :
    (∀ (fs : List SourceFile) (env : WriteEnv) (st : FsState),
      importAll fs = .ok [] → catalog_update fs env st = (.ok (), st)) ∧
    (∀ (file : Str), 40 ≤ file.length → readLE file 24 8 = 0 →
      (open_mmap file).res = .error .ebadmsg) ∧
    (∀ (file : Str), (open_mmap file).res = .ok () → 1 ≤ readLE file 24 8) := by
  refine ⟨?_, ?_, ?_⟩
  · intro fs env st h
    simp [catalog_update, h]
  · intro file h40 hni
    have h1 : ¬file.length < headerSize := by
      simp only [headerSize]; omega
    simp only [open_mmap, if_neg h1]
    rw [if_pos (Or.inr (Or.inr (Or.inr (Or.inr (Or.inl hni)))))]
  · intro file hok
    by_cases hsz : file.length < headerSize
    · simp only [open_mmap, if_pos hsz] at hok
      cases hok
    · by_cases hni : readLE file 24 8 = 0
      · simp only [open_mmap, if_neg hsz] at hok
        rw [if_pos (Or.inr (Or.inr (Or.inr (Or.inr (Or.inl hni)))))] at hok
        cases hok
      · omega

/-- C10 witness: the empty build leaves a pre-existing target untouched; a
zero-record header is rejected as corrupt; a file `open_mmap` accepts
declares a positive record count. -/
theorem claim_C10_witness :
    importAll [] = .ok [] ∧
    catalog_update [] envOk ⟨some [7], none⟩ = (.ok (), ⟨some [7], none⟩) ∧
    (40 ≤ zeroItemsFile.length ∧ readLE zeroItemsFile 24 8 = 0 ∧
      (open_mmap zeroItemsFile).res = .error .ebadmsg) ∧
    ((open_mmap overflowFile).res = .ok () ∧ 1 ≤ readLE overflowFile 24 8) :=
  ⟨by decide, claim_C10.1 [] envOk ⟨some [7], none⟩ (by decide),
   ⟨by decide, by decide, claim_C10.2.1 zeroItemsFile (by decide) (by decide)⟩,
   ⟨by decide, claim_C10.2.2 overflowFile (by decide)⟩⟩

/-- C5 witness: the fallback-chain equation applied at locale
`en_US.UTF-8` on the example table. -/
theorem claim_C5_witness :
    (∀ l, (some (str "en_US.UTF-8") : Option Str) = some l → l.length ≤ 31) ∧
    find_id exItemsLang (some (str "en_US.UTF-8")) idA =
      (locale_candidates (some (str "en_US.UTF-8"))).findSome?
        (fun lang => lookup_item exItemsLang idA lang) :=
  ⟨fun l hl => by injection hl with h; rw [← h]; decide,
   claim_C5.1 exItemsLang (some (str "en_US.UTF-8")) idA
     (fun l hl => by injection hl with h; rw [← h]; decide)⟩
